import Mathlib

/-!
Verification of the key-management and address-derivation core of the
solana-go repository (src/keys.go) against its natural-language
specification.

Bytes are modelled as natural numbers below 256 and byte strings as
`List Nat`.  A Go `PublicKey` (`[32]byte`) is a 32-byte list; Go's
multiple-value returns `(PublicKey, error)` are modelled as pairs
`PublicKey × Option String` carrying the error message, so that the
zero value returned alongside an error stays observable.

The repository delegates four primitives to external libraries; they are
embedded here from their standard definitions so that every derivation is
executable inside Lean:
  * SHA-256 (`crypto/sha256`),
  * the ed25519 compressed-point decoding test
    (`filippo.io/edwards25519`, `Point.SetBytes`), embedded as the
    square-root-existence criterion its decoder implements,
  * the Bitcoin-alphabet base58 codec (`github.com/mr-tron/base58`),
  * the JSON decoding used by the keygen-file import and by
    `PublicKey.UnmarshalJSON`, embedded for the shapes of input those
    call sites feed it (a string, an array of byte-sized numbers).
-/

set_option maxRecDepth 1000000

namespace Solana

/-- Decidable equality for `Except` results, so that concrete runs of the
fallible operations can be checked by evaluation. -/
instance instDecEqExcept {ε α : Type} [DecidableEq ε] [DecidableEq α] :
    DecidableEq (Except ε α) := fun x y =>
  match x, y with
  | Except.error a, Except.error b =>
    if h : a = b then isTrue (by rw [h]) else isFalse (fun hc => h (by injection hc))
  | Except.error _, Except.ok _ => isFalse (fun hc => Except.noConfusion hc)
  | Except.ok _, Except.error _ => isFalse (fun hc => Except.noConfusion hc)
  | Except.ok a, Except.ok b =>
    if h : a = b then isTrue (by rw [h]) else isFalse (fun hc => h (by injection hc))

/-! ## Positional number systems, executable form

`toDigitsLE b f n` is the little-endian base-`b` digit expansion of `n`,
computed with explicit fuel `f` (any `f ≥ n` is enough) so that it is
structurally recursive and kernel-evaluable. -/

def toDigitsLE (b : Nat) : Nat → Nat → List Nat
  | 0, _ => []
  | f+1, n => if n = 0 then [] else n % b :: toDigitsLE b f (n / b)

/-- A big-endian byte string read as a natural number. -/
def bytesToNatBE (l : List Nat) : Nat := l.foldl (fun a d => a * 256 + d) 0

/-- The minimal big-endian byte expansion of a natural number (empty for 0). -/
def natToBytesBE (n : Nat) : List Nat := (toDigitsLE 256 n n).reverse

/-- A little-endian byte string read as a natural number. -/
def leBytesToNat (l : List Nat) : Nat := l.foldr (fun d a => a * 256 + d) 0

/-! ## Base58 codec

Modelled from the spec: the repository encodes and decodes 32-byte
identifiers through the external `github.com/mr-tron/base58` package,
whose source is not part of the repository.  The spec describes it as the
standard Bitcoin-style codec: the fixed 58-character alphabet, no
checksum, leading zero bytes exchanged with leading chars of digit zero,
and `Decode` failing exactly on characters outside the alphabet. -/

def b58Chars : List Char :=
  "123456789ABCDEFGHJKLMNPQRSTUVWXYZabcdefghijkmnopqrstuvwxyz".toList

/-- The character encoding base58 digit `d`. -/
def b58CharOf (d : Nat) : Char := b58Chars.getD d (Char.ofNat 49)

/-- The base58 digit of a character, `none` outside the alphabet. -/
def b58DigitOf (c : Char) : Option Nat := b58Chars.findIdx? (fun x => x == c)

def b58Encode (bs : List Nat) : String :=
  let zeros := (bs.takeWhile (fun b => b == 0)).length
  let n := bytesToNatBE bs
  String.mk (List.replicate zeros (Char.ofNat 49) ++ (toDigitsLE 58 n n).reverse.map b58CharOf)

def b58Decode (s : String) : Except String (List Nat) :=
  let cs := s.toList
  if cs.all (fun c => (b58DigitOf c).isSome) then
    let n := cs.foldl (fun a c => a * 58 + (b58DigitOf c).getD 0) 0
    let zeros := (cs.takeWhile (fun c => c == Char.ofNat 49)).length
    Except.ok (List.replicate zeros 0 ++ natToBytesBE n)
  else Except.error "invalid base58 digit"

/-! ## SHA-256 (the `crypto/sha256` primitive, standard FIPS 180-4 definition) -/

def two32 : Nat := 4294967296

def rotr32 (x k : Nat) : Nat := ((x >>> k) ||| (x <<< (32 - k))) % two32

def not32 (x : Nat) : Nat := x ^^^ 4294967295

def bigS0 (x : Nat) : Nat := (rotr32 x 2) ^^^ (rotr32 x 13) ^^^ (rotr32 x 22)

def bigS1 (x : Nat) : Nat := (rotr32 x 6) ^^^ (rotr32 x 11) ^^^ (rotr32 x 25)

def smallS0 (x : Nat) : Nat := (rotr32 x 7) ^^^ (rotr32 x 18) ^^^ (x >>> 3)

def smallS1 (x : Nat) : Nat := (rotr32 x 17) ^^^ (rotr32 x 19) ^^^ (x >>> 10)

/-- The eight 32-bit words of SHA-256's running state. -/
structure Hash8 where
  a : Nat
  b : Nat
  c : Nat
  d : Nat
  e : Nat
  f : Nat
  g : Nat
  h : Nat

/-- The initial hash state of SHA-256 (FIPS 180-4, in decimal). -/
def shaInit : Hash8 :=
  ⟨1779033703, 3144134277, 1013904242, 2773480762,
   1359893119, 2600822924, 528734635, 1541459225⟩

/-- The 64 SHA-256 round constants (FIPS 180-4, in decimal). -/
def shaK : List Nat :=
  [1116352408, 1899447441, 3049323471, 3921009573,
   961987163, 1508970993, 2453635748, 2870763221,
   3624381080, 310598401, 607225278, 1426881987,
   1925078388, 2162078206, 2614888103, 3248222580,
   3835390401, 4022224774, 264347078, 604807628,
   770255983, 1249150122, 1555081692, 1996064986,
   2554220882, 2821834349, 2952996808, 3210313671,
   3336571891, 3584528711, 113926993, 338241895,
   666307205, 773529912, 1294757372, 1396182291,
   1695183700, 1986661051, 2177026350, 2456956037,
   2730485921, 2820302411, 3259730800, 3345764771,
   3516065817, 3600352804, 4094571909, 275423344,
   430227734, 506948616, 659060556, 883997877,
   958139571, 1322822218, 1537002063, 1747873779,
   1955562222, 2024104815, 2227730452, 2361852424,
   2428436474, 2756734187, 3204031479, 3329325298]

/-- Message-schedule extension, keeping the words most-recent-first. -/
def extendRev : Nat → List Nat → List Nat
  | 0, acc => acc
  | f+1, acc =>
    let w2 := acc.getD 1 0
    let w7 := acc.getD 6 0
    let w15 := acc.getD 14 0
    let w16 := acc.getD 15 0
    extendRev f (((smallS1 w2 + w7 + smallS0 w15 + w16) % two32) :: acc)

def schedule (block16 : List Nat) : List Nat := (extendRev 48 block16.reverse).reverse

def compressStep (st : Hash8) (kw : Nat × Nat) : Hash8 :=
  let ch := (st.e &&& st.f) ^^^ ((not32 st.e) &&& st.g)
  let maj := (st.a &&& st.b) ^^^ (st.a &&& st.c) ^^^ (st.b &&& st.c)
  let t1 := (st.h + bigS1 st.e + ch + kw.1 + kw.2) % two32
  let t2 := (bigS0 st.a + maj) % two32
  ⟨(t1 + t2) % two32, st.a, st.b, st.c, (st.d + t1) % two32, st.e, st.f, st.g⟩

def compressBlock (st : Hash8) (block16 : List Nat) : Hash8 :=
  let fin := (shaK.zip (schedule block16)).foldl compressStep st
  ⟨(st.a + fin.a) % two32, (st.b + fin.b) % two32, (st.c + fin.c) % two32,
   (st.d + fin.d) % two32, (st.e + fin.e) % two32, (st.f + fin.f) % two32,
   (st.g + fin.g) % two32, (st.h + fin.h) % two32⟩

def sha256Pad (msg : List Nat) : List Nat :=
  let r := (msg.length + 1) % 64
  let zeros := (56 + 64 - r) % 64
  msg ++ [128] ++ List.replicate zeros 0 ++
    (List.range 8).reverse.map (fun i => ((8 * msg.length) >>> (8 * i)) % 256)

def toWords : Nat → List Nat → List Nat
  | 0, _ => []
  | f+1, l => if l.isEmpty then [] else bytesToNatBE (l.take 4) :: toWords f (l.drop 4)

def toBlocks : Nat → List Nat → List (List Nat)
  | 0, _ => []
  | f+1, l => if l.isEmpty then [] else l.take 64 :: toBlocks f (l.drop 64)

def word32ToBytesBE (w : Nat) : List Nat :=
  [(w >>> 24) % 256, (w >>> 16) % 256, (w >>> 8) % 256, w % 256]

def h8ToBytes (st : Hash8) : List Nat :=
  word32ToBytesBE st.a ++ word32ToBytesBE st.b ++ word32ToBytesBE st.c ++ word32ToBytesBE st.d ++
  word32ToBytesBE st.e ++ word32ToBytesBE st.f ++ word32ToBytesBE st.g ++ word32ToBytesBE st.h

def sha256 (msg : List Nat) : List Nat :=
  let padded := sha256Pad msg
  let blocks := toBlocks padded.length padded
  h8ToBytes (blocks.foldl (fun st b => compressBlock st (toWords 16 b)) shaInit)

/-! ## The ed25519 curve-membership test

`CreateProgramAddress` calls `new(edwards25519.Point).SetBytes(hash)` and
treats decoding success as "on curve".  `SetBytes` reads the low 255 bits
of the 32-byte string little-endian, reduces modulo `p = 2^255 - 19` to
the candidate `y` coordinate, and succeeds exactly when
`(y^2 - 1) / (d y^2 + 1)` is a square modulo `p` (the recovered `x^2`);
`d y^2 + 1` never vanishes.  Squareness is decided here by Euler's
criterion, via fuel-based modular exponentiation. -/

def pEd : Nat := 2^255 - 19

def dEd : Nat := 37095705934669439343138083508754565189542113879843219016388785533085940283555

def powModAux (m : Nat) : Nat → Nat → Nat → Nat
  | 0, _, _ => 1 % m
  | f+1, b, e =>
    if e = 0 then 1 % m
    else
      let r := powModAux m f ((b * b) % m) (e / 2)
      if e % 2 = 1 then (b * r) % m else r

def powMod (m b e : Nat) : Nat := powModAux m e (b % m) e

def isOnCurve (bs : List Nat) : Bool :=
  bs.length == 32 &&
  (let y := leBytesToNat bs % 2^255 % pEd
   let y2 := y * y % pEd
   let u := (y2 + pEd - 1) % pEd
   let v := (dEd * y2 + 1) % pEd
   let w := u * powMod pEd v (pEd - 2) % pEd
   w == 0 || powMod pEd w ((pEd - 1) / 2) == 1)

/-! ## PublicKey (src/keys.go) -/

/-- Number of bytes in a pubkey (`PublicKeyLength`). -/
def PublicKeyLength : Nat := 32

/-- Maximum length of a derived pubkey seed (`MaxSeedLength`). -/
def MaxSeedLength : Nat := 32

/-- Maximum number of seeds (`MaxSeeds`). -/
def MaxSeeds : Nat := 16

/-- A Go `PublicKey` is `[32]byte`; functions below construct only
32-byte values. -/
abbrev PublicKey := List Nat

/-- The zero `PublicKey{}` value (`zeroPublicKey` in keys.go). -/
def zeroPublicKey : PublicKey := List.replicate 32 0

/-- `PublicKeyFromBytes`: copies at most 32 leading bytes into a zeroed
32-byte array — input longer than 32 bytes is truncated, shorter input is
zero-padded on the right. -/
def publicKeyFromBytes (inp : List Nat) : PublicKey :=
  inp.take PublicKeyLength ++ List.replicate (PublicKeyLength - inp.length) 0

/-- `PublicKey.String`: base58 of the raw bytes. -/
def pkString (p : PublicKey) : String := b58Encode p

/-- `PublicKeyFromBase58`: base58-decode, then require exactly 32 bytes. -/
def publicKeyFromBase58 (s : String) : PublicKey × Option String :=
  match b58Decode s with
  | Except.error e => (zeroPublicKey, some ("decode: " ++ e))
  | Except.ok val =>
    if val.length = PublicKeyLength then (val, none)
    else (zeroPublicKey, some ("invalid length, expected 32, got " ++ toString val.length))

/-- `MustPublicKeyFromBase58` on the trusted literals used for the fixed
program-identifier constants (each decodes to exactly 32 bytes, so the
panic branch is never taken on them). -/
def mustPublicKeyFromBase58 (s : String) : PublicKey := (publicKeyFromBase58 s).1

/-- `PublicKey.UnmarshalText`: assigns the receiver from
`PublicKeyFromBase58` (the zero key on failure) and wraps the error. -/
def publicKeyUnmarshalText (data : String) : PublicKey × Option String :=
  match publicKeyFromBase58 data with
  | (pk, none) => (pk, none)
  | (pk, some e) => (pk, some ("invalid public key " ++ data ++ ": " ++ e))

/-- Model of `json.Unmarshal` into a Go `string`, for inputs that are a
quoted JSON string without escape sequences (the shape
`PublicKey.UnmarshalJSON` receives for base58 text). -/
def jsonUnmarshalString (data : String) : Except String String :=
  match data.toList with
  | [] => Except.error "unexpected end of JSON input"
  | c :: rest =>
    if c = Char.ofNat 34 ∧ rest ≠ [] ∧ rest.getLast? = some (Char.ofNat 34) ∧
        (∀ x ∈ rest.dropLast, x ≠ Char.ofNat 34 ∧ x ≠ Char.ofNat 92)
    then Except.ok (String.mk rest.dropLast)
    else Except.error "invalid character looking for beginning of value"

/-- The JSON encoding of an escape-free string: surrounding quotes. -/
def jsonQuote (s : String) : String :=
  String.mk (Char.ofNat 34 :: s.toList ++ [Char.ofNat 34])

/-- `PublicKey.UnmarshalJSON`: decode the JSON string, then
`PublicKeyFromBase58`; on a JSON error the receiver keeps its previous
value `prev`, on a base58 error it is assigned the zero key. -/
def publicKeyUnmarshalJSON (prev : PublicKey) (data : String) : PublicKey × Option String :=
  match jsonUnmarshalString data with
  | Except.error e => (prev, some e)
  | Except.ok s =>
    match publicKeyFromBase58 s with
    | (pk, none) => (pk, none)
    | (pk, some e) => (pk, some ("invalid public key " ++ s ++ ": " ++ e))

/-! ## Private-key import (src/keys.go) -/

/-- `PrivateKeyFromBase58`: base58-decode and return the bytes; keys.go
performs no length validation on the result. -/
def privateKeyFromBase58 (s : String) : Except String (List Nat) := b58Decode s

/-- Model of `json.Unmarshal` of a JSON array of byte-sized numbers into a
Go byte slice (the keygen-file shape): an opening bracket, decimal
numbers of at most 255 separated by commas (optional blanks after a
comma), a closing bracket ending the input. -/
def parseBytesAux : Nat → List Char → Except String (List Nat)
  | 0, _ => Except.error "unexpected end of input"
  | f+1, cs =>
    let ds := cs.takeWhile Char.isDigit
    let rest := cs.dropWhile Char.isDigit
    if ds.isEmpty then Except.error "invalid character"
    else
      let n := ds.foldl (fun a c => a * 10 + (c.toNat - 48)) 0
      if n > 255 then Except.error "number out of byte range"
      else
        match rest with
        | [] => Except.error "unexpected end of input"
        | c :: more =>
          if c = Char.ofNat 44 then
            (parseBytesAux f (more.dropWhile (fun x => x == Char.ofNat 32))).map
              (fun t => n :: t)
          else if c = Char.ofNat 93 ∧ more = [] then Except.ok [n]
          else Except.error "invalid character"

def parseByteArray (s : String) : Except String (List Nat) :=
  match s.toList with
  | [] => Except.error "unexpected end of input"
  | c :: rest =>
    if c = Char.ofNat 91 then
      if rest = [Char.ofNat 93] then Except.ok []
      else parseBytesAux s.length rest
    else Except.error "invalid character looking for beginning of value"

/-- `PrivateKeyFromSolanaKeygenFile`, content-processing part: decode the
JSON byte array, wrapping a decode failure; the byte count is not
validated, the parsed bytes are returned as the `PrivateKey` as they are. -/
def privateKeyFromSolanaKeygenContent (content : String) : Except String (List Nat) :=
  match parseByteArray content with
  | Except.error e => Except.error ("decode keygen file: " ++ e)
  | Except.ok values => Except.ok values

/-! ## The reserved native-program identifiers

Modelled from the spec: keys.go builds `nativeProgramIDs` from eighteen
named constants (`BPFLoaderProgramID` … `SysVarStakeHistoryPubkey`)
declared elsewhere in the repository, outside the included source files;
the spec describes the set as "a fixed, immutable set of reserved
identifiers (system/sysvar/native-program addresses)".  The values below
are the canonical base58 forms those names carry on the network. -/

def nativeProgramIDs : List PublicKey :=
  [mustPublicKeyFromBase58 "BPFLoader2111111111111111111111111111111111",
   mustPublicKeyFromBase58 "BPFLoader1111111111111111111111111111111111",
   mustPublicKeyFromBase58 "Feature111111111111111111111111111111111111",
   mustPublicKeyFromBase58 "Config1111111111111111111111111111111111111",
   mustPublicKeyFromBase58 "Stake11111111111111111111111111111111111111",
   mustPublicKeyFromBase58 "Vote111111111111111111111111111111111111111",
   mustPublicKeyFromBase58 "KeccakSecp256k11111111111111111111111111111",
   mustPublicKeyFromBase58 "11111111111111111111111111111111",
   mustPublicKeyFromBase58 "SysvarC1ock11111111111111111111111111111111",
   mustPublicKeyFromBase58 "SysvarEpochSchedu1e111111111111111111111111",
   mustPublicKeyFromBase58 "SysvarFees111111111111111111111111111111111",
   mustPublicKeyFromBase58 "Sysvar1nstructions1111111111111111111111111",
   mustPublicKeyFromBase58 "SysvarRecentB1ockHashes11111111111111111111",
   mustPublicKeyFromBase58 "SysvarRent111111111111111111111111111111111",
   mustPublicKeyFromBase58 "SysvarRewards111111111111111111111111111111",
   mustPublicKeyFromBase58 "SysvarS1otHashes111111111111111111111111111",
   mustPublicKeyFromBase58 "SysvarS1otHistory11111111111111111111111111",
   mustPublicKeyFromBase58 "SysvarStakeHistory1111111111111111111111111"]

/-- `isNativeProgramID`: membership in the reserved set, by byte equality. -/
def isNativeProgramID (key : PublicKey) : Bool := nativeProgramIDs.contains key

/-! ## Address derivation (src/keys.go) -/

/-- `CreateWithSeed`: reject seeds over 32 bytes, else
SHA256(base ++ seed ++ owner); the seed string is modelled by its byte
sequence.  No curve check, no owner restriction (the upstream
IllegalOwner check is commented out in keys.go). -/
def createWithSeed (base : PublicKey) (seed : List Nat) (owner : PublicKey) :
    PublicKey × Option String :=
  if seed.length > MaxSeedLength then (zeroPublicKey, some "Max seed length exceeded")
  else (publicKeyFromBytes (sha256 (base ++ seed ++ owner)), none)

/-- The `PDA_MARKER` domain-separation literal, as bytes. -/
def pdaMarkerBytes : List Nat := "ProgramDerivedAddress".toList.map Char.toNat

/-- The error message `CreateProgramAddress` attaches to a reserved owner. -/
def illegalOwnerMessage (programID : PublicKey) : String :=
  "illegal owner: " ++ pkString programID ++ " is a native program"

/-- `CreateProgramAddress`: at most 16 seeds, each at most 32 bytes,
owner not reserved; hash the concatenated seeds, the owner and the PDA
marker; reject a digest that decodes to a curve point, else return it. -/
def createProgramAddress (seeds : List (List Nat)) (programID : PublicKey) :
    PublicKey × Option String :=
  if seeds.length > MaxSeeds then (zeroPublicKey, some "Max seed length exceeded")
  else if seeds.any (fun s => s.length > MaxSeedLength) then
    (zeroPublicKey, some "Max seed length exceeded")
  else if isNativeProgramID programID then (zeroPublicKey, some (illegalOwnerMessage programID))
  else
    let hash := sha256 (seeds.flatten ++ programID ++ pdaMarkerBytes)
    if isOnCurve hash then (zeroPublicKey, some "invalid seeds; address must fall off the curve")
    else (publicKeyFromBytes hash, none)

/-- The bump-seed loop of `FindProgramAddress`: try the bump value `b+1`,
then count down; at 0 the scan is exhausted and the zero key, bump 0 and
the exhaustion error are returned. -/
def findProgramAddressAux (seeds : List (List Nat)) (programID : PublicKey) :
    Nat → PublicKey × Nat × Option String
  | 0 => (zeroPublicKey, 0, some "unable to find a valid program address")
  | b+1 =>
    match createProgramAddress (seeds ++ [[b+1]]) programID with
    | (addr, none) => (addr, b+1, none)
    | (_, some _) => findProgramAddressAux seeds programID b

/-- `FindProgramAddress`: scan bump 255 down to 1. -/
def findProgramAddress (seeds : List (List Nat)) (programID : PublicKey) :
    PublicKey × Nat × Option String :=
  findProgramAddressAux seeds programID 255

/-! ## Basic facts about the embedded primitives -/

theorem h8ToBytes_length (st : Hash8) : (h8ToBytes st).length = 32 := by
  simp [h8ToBytes, word32ToBytesBE]

theorem sha256_length (msg : List Nat) : (sha256 msg).length = 32 := by
  unfold sha256
  exact h8ToBytes_length _

theorem publicKeyFromBytes_of_len32 (bs : List Nat) (h : bs.length = 32) :
    publicKeyFromBytes bs = bs := by
  simp [publicKeyFromBytes, PublicKeyLength, h, List.take_of_length_le (le_of_eq h)]

theorem publicKeyFromBytes_sha256 (msg : List Nat) :
    publicKeyFromBytes (sha256 msg) = sha256 msg :=
  publicKeyFromBytes_of_len32 _ (sha256_length msg)

/-! ## The digit expansions agree with Mathlib's `Nat.digits` -/

theorem toDigitsLE_eq_digits (b : Nat) (hb : 2 ≤ b) :
    ∀ f n, n ≤ f → toDigitsLE b f n = Nat.digits b n := by
  intro f
  induction f with
  | zero =>
    intro n hn
    have h0 : n = 0 := Nat.le_zero.mp hn
    subst h0
    simp [toDigitsLE]
  | succ f ih =>
    intro n hn
    by_cases h0 : n = 0
    · subst h0; simp [toDigitsLE]
    · rw [toDigitsLE, if_neg h0,
        Nat.digits_def' (by omega : 1 < b) (Nat.pos_of_ne_zero h0)]
      have hlt : n / b < n := Nat.div_lt_self (Nat.pos_of_ne_zero h0) (by omega)
      rw [ih (n / b) (by omega)]

theorem foldl_base_eq_ofDigits (b : Nat) :
    ∀ (l : List Nat) (a : Nat),
      l.foldl (fun x d => x * b + d) a = a * b ^ l.length + Nat.ofDigits b l.reverse := by
  intro l
  induction l with
  | nil => intro a; simp [Nat.ofDigits_nil]
  | cons d t ih =>
    intro a
    simp only [List.foldl_cons, List.reverse_cons, List.length_cons]
    rw [ih, Nat.ofDigits_append]
    simp only [Nat.ofDigits_cons, Nat.ofDigits_nil, List.length_reverse]
    ring

theorem bytesToNatBE_eq_ofDigits (l : List Nat) :
    bytesToNatBE l = Nat.ofDigits 256 l.reverse := by
  have h := foldl_base_eq_ofDigits 256 l 0
  simpa [bytesToNatBE] using h

theorem natToBytesBE_eq (n : Nat) : natToBytesBE n = (Nat.digits 256 n).reverse := by
  rw [natToBytesBE, toDigitsLE_eq_digits 256 (by omega) n n le_rfl]

theorem bytesToNatBE_natToBytesBE (n : Nat) : bytesToNatBE (natToBytesBE n) = n := by
  rw [natToBytesBE_eq, bytesToNatBE_eq_ofDigits, List.reverse_reverse, Nat.ofDigits_digits]

theorem bytesToNatBE_eq_zero (l : List Nat) (h : bytesToNatBE l = 0) : ∀ d ∈ l, d = 0 := by
  rw [bytesToNatBE_eq_ofDigits] at h
  intro d hdl
  exact Nat.digits_zero_of_eq_zero (by omega) h d (List.mem_reverse.mpr hdl)

theorem natToBytesBE_bytesToNatBE (l : List Nat) (hd : ∀ d ∈ l, d < 256)
    (h0 : l.head? ≠ some 0) : natToBytesBE (bytesToNatBE l) = l := by
  rcases l with _ | ⟨a, t⟩
  · simp [bytesToNatBE, natToBytesBE, toDigitsLE]
  · have ha : a ≠ 0 := by
      intro h; apply h0; simp [h]
    rw [bytesToNatBE_eq_ofDigits, natToBytesBE_eq]
    rw [Nat.digits_ofDigits 256 (by omega) ((a :: t).reverse)
      (fun x hx => hd x (List.mem_reverse.mp hx))
      (fun hne => by
        rw [List.getLast_reverse hne]
        simpa using ha)]
    exact List.reverse_reverse _

/-! ## Base58 alphabet facts (finite checks) -/

theorem b58DigitOf_one_char : b58DigitOf (Char.ofNat 49) = some 0 := by decide

theorem b58DigitOf_b58CharOf : ∀ d, d < 58 → b58DigitOf (b58CharOf d) = some d := by decide

theorem b58CharOf_ne_one : ∀ d, d < 58 → d ≠ 0 → (b58CharOf d == Char.ofNat 49) = false := by
  decide

/-! ## Folds used by the codec -/

theorem foldl_b58_digits (l : List Nat) (hl : ∀ d ∈ l, d < 58) (a : Nat) :
    (l.map b58CharOf).foldl (fun x c => x * 58 + (b58DigitOf c).getD 0) a =
      l.foldl (fun x d => x * 58 + d) a := by
  induction l generalizing a with
  | nil => rfl
  | cons d t ih =>
    simp only [List.map_cons, List.foldl_cons]
    rw [b58DigitOf_b58CharOf d (hl d (by simp))]
    simp only [Option.getD_some]
    exact ih (fun x hx => hl x (by simp [hx])) _

theorem foldl_b58_replicate_one (z : Nat) :
    (List.replicate z (Char.ofNat 49)).foldl (fun x c => x * 58 + (b58DigitOf c).getD 0) 0 = 0 := by
  induction z with
  | zero => rfl
  | succ z ih =>
    simp only [List.replicate_succ, List.foldl_cons, b58DigitOf_one_char, Option.getD_some]
    simpa using ih

theorem foldl_bytes_zero (l : List Nat) (h : ∀ x ∈ l, x = 0) :
    l.foldl (fun a d => a * 256 + d) 0 = 0 := by
  induction l with
  | nil => rfl
  | cons d t ih =>
    have hd : d = 0 := h d (by simp)
    subst hd
    simp only [List.foldl_cons, Nat.zero_mul, Nat.add_zero]
    exact ih (fun x hx => h x (by simp [hx]))

/-! ## The base58 round-trip law -/

theorem b58_roundtrip (bs : List Nat) (hb : ∀ d ∈ bs, d < 256) :
    b58Decode (b58Encode bs) = Except.ok bs := by
  have henc : b58Encode bs = String.mk
      (List.replicate (bs.takeWhile (fun b => b == 0)).length (Char.ofNat 49) ++
        (Nat.digits 58 (bytesToNatBE bs)).reverse.map b58CharOf) := by
    simp only [b58Encode]
    rw [toDigitsLE_eq_digits 58 (by omega) _ _ le_rfl]
  rw [henc]
  have hdig : ∀ d ∈ (Nat.digits 58 (bytesToNatBE bs)).reverse, d < 58 := fun d hd =>
    Nat.digits_lt_base (by omega) (List.mem_reverse.mp hd)
  have hval : ∀ c ∈ (List.replicate (bs.takeWhile (fun b => b == 0)).length (Char.ofNat 49) ++
      (Nat.digits 58 (bytesToNatBE bs)).reverse.map b58CharOf),
      ((b58DigitOf c).isSome : Bool) = true := by
    intro c hc
    rcases List.mem_append.mp hc with h | h
    · have hc1 := List.eq_of_mem_replicate h
      subst hc1
      simp [b58DigitOf_one_char]
    · rcases List.mem_map.mp h with ⟨d, hd, rfl⟩
      rw [b58DigitOf_b58CharOf d (hdig d hd)]
      rfl
  simp only [b58Decode]
  rw [show (String.mk (List.replicate (bs.takeWhile (fun b => b == 0)).length (Char.ofNat 49) ++
      (Nat.digits 58 (bytesToNatBE bs)).reverse.map b58CharOf)).toList =
      (List.replicate (bs.takeWhile (fun b => b == 0)).length (Char.ofNat 49) ++
      (Nat.digits 58 (bytesToNatBE bs)).reverse.map b58CharOf) from rfl]
  rw [List.all_eq_true.mpr hval]
  simp only [if_true]
  have hfold : (List.replicate (bs.takeWhile (fun b => b == 0)).length (Char.ofNat 49) ++
      (Nat.digits 58 (bytesToNatBE bs)).reverse.map b58CharOf).foldl
        (fun a c => a * 58 + (b58DigitOf c).getD 0) 0 = bytesToNatBE bs := by
    rw [List.foldl_append, foldl_b58_replicate_one,
      foldl_b58_digits _ hdig 0, foldl_base_eq_ofDigits 58, List.reverse_reverse,
      Nat.ofDigits_digits]
    simp
  rw [hfold]
  by_cases hn0 : bytesToNatBE bs = 0
  · have hall : ∀ x ∈ bs, x = 0 := bytesToNatBE_eq_zero bs hn0
    have hbs : bs = List.replicate bs.length 0 := List.eq_replicate_of_mem hall
    have htw : bs.takeWhile (fun b => b == 0) = bs := by
      conv_lhs => rw [hbs]
      rw [List.takeWhile_replicate]
      simp [← hbs]
    rw [hn0]
    simp only [Nat.digits_zero, List.reverse_nil, List.map_nil, List.append_nil]
    rw [List.takeWhile_replicate]
    simp only [beq_self_eq_true, if_true, List.length_replicate]
    rw [htw]
    rw [show natToBytesBE 0 = [] from rfl]
    rw [List.append_nil]
    exact congrArg Except.ok hbs.symm
  · have hne : Nat.digits 58 (bytesToNatBE bs) ≠ [] :=
      Nat.digits_ne_nil_iff_ne_zero.mpr hn0
    have hrne : (Nat.digits 58 (bytesToNatBE bs)).reverse ≠ [] := by
      simpa using hne
    obtain ⟨h0, t0, hht⟩ := List.exists_cons_of_ne_nil hrne
    have hh0lt : h0 < 58 := hdig h0 (by rw [hht]; simp)
    have hh0ne : h0 ≠ 0 := by
      have h1 : (Nat.digits 58 (bytesToNatBE bs)).reverse.head? = some h0 := by
        rw [hht]; rfl
      rw [List.head?_reverse] at h1
      have h2 := List.getLast?_eq_getLast _ hne
      rw [h1] at h2
      have h3 := Nat.getLast_digit_ne_zero 58 hn0
      intro hcontra
      apply h3
      rw [← Option.some_inj.mp h2, hcontra]
    have hzeros : ((List.replicate (bs.takeWhile (fun b => b == 0)).length (Char.ofNat 49) ++
        (Nat.digits 58 (bytesToNatBE bs)).reverse.map b58CharOf).takeWhile
          (fun c => c == Char.ofNat 49)).length =
        (bs.takeWhile (fun b => b == 0)).length := by
      rw [List.takeWhile_append_of_pos (by
        intro a ha
        have := List.eq_of_mem_replicate ha
        subst this
        simp)]
      rw [hht]
      simp only [List.map_cons]
      rw [List.takeWhile_cons_of_neg (by
        rw [b58CharOf_ne_one h0 hh0lt hh0ne]
        simp)]
      simp
    rw [hzeros]
    have hsplit : bs.takeWhile (fun b => b == 0) ++ bs.dropWhile (fun b => b == 0) = bs :=
      List.takeWhile_append_dropWhile _ _
    have htwz : bs.takeWhile (fun b => b == 0) =
        List.replicate (bs.takeWhile (fun b => b == 0)).length 0 :=
      List.eq_replicate_of_mem (fun x hx => by
        have := List.mem_takeWhile_imp hx
        simpa using this)
    have hdropn : bytesToNatBE (bs.dropWhile (fun b => b == 0)) = bytesToNatBE bs := by
      conv_rhs => rw [← hsplit]
      simp only [bytesToNatBE]
      rw [List.foldl_append]
      rw [foldl_bytes_zero (bs.takeWhile (fun b => b == 0)) (fun x hx => by
        have := List.mem_takeWhile_imp hx
        simpa using this)]
    have hdropinv : natToBytesBE (bytesToNatBE bs) = bs.dropWhile (fun b => b == 0) := by
      rw [← hdropn]
      apply natToBytesBE_bytesToNatBE
      · intro d hd
        exact hb d (List.dropWhile_subset _ hd)
      · intro hcontra
        have hmatch := List.head?_dropWhile_not (fun b => b == 0) bs
        rw [hcontra] at hmatch
        simp at hmatch
    rw [hdropinv]
    conv_rhs => rw [← hsplit]
    rw [← htwz]

/-! ## The `CreateProgramAddress` failure cascade -/

theorem createProgramAddress_too_many (seeds : List (List Nat)) (owner : PublicKey)
    (h : MaxSeeds < seeds.length) :
    createProgramAddress seeds owner = (zeroPublicKey, some "Max seed length exceeded") := by
  unfold createProgramAddress
  rw [if_pos h]

theorem createProgramAddress_seed_too_long (seeds : List (List Nat)) (owner : PublicKey)
    (h1 : seeds.length ≤ MaxSeeds) (h2 : ∃ s ∈ seeds, MaxSeedLength < s.length) :
    createProgramAddress seeds owner = (zeroPublicKey, some "Max seed length exceeded") := by
  unfold createProgramAddress
  rw [if_neg (by omega), if_pos (List.any_eq_true.mpr (by
    rcases h2 with ⟨s, hs, hlen⟩
    exact ⟨s, hs, by simpa using hlen⟩))]

theorem createProgramAddress_illegal_owner (seeds : List (List Nat)) (owner : PublicKey)
    (h1 : seeds.length ≤ MaxSeeds) (h2 : ∀ s ∈ seeds, s.length ≤ MaxSeedLength)
    (h3 : isNativeProgramID owner = true) :
    createProgramAddress seeds owner = (zeroPublicKey, some (illegalOwnerMessage owner)) := by
  unfold createProgramAddress
  rw [if_neg (by omega), if_neg (by
    simp only [List.any_eq_true, not_exists]
    intro s
    rw [not_and]
    intro hs
    simpa using h2 s hs), if_pos h3]

theorem createProgramAddress_on_curve (seeds : List (List Nat)) (owner : PublicKey)
    (h1 : seeds.length ≤ MaxSeeds) (h2 : ∀ s ∈ seeds, s.length ≤ MaxSeedLength)
    (h3 : isNativeProgramID owner = false)
    (h4 : isOnCurve (sha256 (seeds.flatten ++ owner ++ pdaMarkerBytes)) = true) :
    createProgramAddress seeds owner =
      (zeroPublicKey, some "invalid seeds; address must fall off the curve") := by
  unfold createProgramAddress
  rw [if_neg (by omega), if_neg (by
    simp only [List.any_eq_true, not_exists]
    intro s
    rw [not_and]
    intro hs
    simpa using h2 s hs), if_neg (by simp [h3])]
  simp only [h4, if_true]

theorem createProgramAddress_ok (seeds : List (List Nat)) (owner : PublicKey)
    (h1 : seeds.length ≤ MaxSeeds) (h2 : ∀ s ∈ seeds, s.length ≤ MaxSeedLength)
    (h3 : isNativeProgramID owner = false)
    (h4 : isOnCurve (sha256 (seeds.flatten ++ owner ++ pdaMarkerBytes)) = false) :
    createProgramAddress seeds owner =
      (sha256 (seeds.flatten ++ owner ++ pdaMarkerBytes), none) := by
  unfold createProgramAddress
  rw [if_neg (by omega), if_neg (by
    simp only [List.any_eq_true, not_exists]
    intro s
    rw [not_and]
    intro hs
    simpa using h2 s hs), if_neg (by simp [h3])]
  simp only [h4, if_false, Bool.false_eq_true]
  rw [publicKeyFromBytes_sha256]

theorem createProgramAddress_err_iff (seeds : List (List Nat)) (owner : PublicKey) :
    (createProgramAddress seeds owner).2.isSome = true ↔
      (MaxSeeds < seeds.length ∨ (∃ s ∈ seeds, MaxSeedLength < s.length) ∨
       isNativeProgramID owner = true ∨
       isOnCurve (sha256 (seeds.flatten ++ owner ++ pdaMarkerBytes)) = true) := by
  by_cases h1 : MaxSeeds < seeds.length
  · rw [createProgramAddress_too_many seeds owner h1]
    exact iff_of_true rfl (Or.inl h1)
  · by_cases h2 : ∃ s ∈ seeds, MaxSeedLength < s.length
    · rw [createProgramAddress_seed_too_long seeds owner (by omega) h2]
      exact iff_of_true rfl (Or.inr (Or.inl h2))
    · have h2' : ∀ s ∈ seeds, s.length ≤ MaxSeedLength := by
        intro s hs
        by_contra hcon
        exact h2 ⟨s, hs, by omega⟩
      by_cases h3 : isNativeProgramID owner = true
      · rw [createProgramAddress_illegal_owner seeds owner (by omega) h2' h3]
        exact iff_of_true rfl (Or.inr (Or.inr (Or.inl h3)))
      · have h3' : isNativeProgramID owner = false := by
          cases hio : isNativeProgramID owner
          · rfl
          · exact absurd hio h3
        by_cases h4 : isOnCurve (sha256 (seeds.flatten ++ owner ++ pdaMarkerBytes)) = true
        · rw [createProgramAddress_on_curve seeds owner (by omega) h2' h3' h4]
          exact iff_of_true rfl (Or.inr (Or.inr (Or.inr h4)))
        · have h4' : isOnCurve (sha256 (seeds.flatten ++ owner ++ pdaMarkerBytes)) = false := by
            cases hio : isOnCurve (sha256 (seeds.flatten ++ owner ++ pdaMarkerBytes))
            · rfl
            · exact absurd hio h4
          rw [createProgramAddress_ok seeds owner (by omega) h2' h3' h4']
          refine iff_of_false (by simp) ?_
          rintro (h | h | h | h)
          · omega
          · exact h2 h
          · exact h3 h
          · rw [h4'] at h
            exact absurd h (by decide)

theorem createProgramAddress_ok_inv (seeds : List (List Nat)) (owner : PublicKey)
    (pk : PublicKey) (h : createProgramAddress seeds owner = (pk, none)) :
    seeds.length ≤ MaxSeeds ∧ (∀ s ∈ seeds, s.length ≤ MaxSeedLength) ∧
    isNativeProgramID owner = false ∧
    isOnCurve (sha256 (seeds.flatten ++ owner ++ pdaMarkerBytes)) = false ∧
    pk = sha256 (seeds.flatten ++ owner ++ pdaMarkerBytes) := by
  have herr : (createProgramAddress seeds owner).2 = none := by rw [h]
  have hnone : ¬ ((createProgramAddress seeds owner).2.isSome = true) := by
    rw [herr]; simp
  rw [createProgramAddress_err_iff] at hnone
  push_neg at hnone
  obtain ⟨h1, h2, h3, h4⟩ := hnone
  have h3' : isNativeProgramID owner = false := by
    cases hio : isNativeProgramID owner
    · rfl
    · exact absurd hio h3
  have h4' : isOnCurve (sha256 (seeds.flatten ++ owner ++ pdaMarkerBytes)) = false := by
    cases hio : isOnCurve (sha256 (seeds.flatten ++ owner ++ pdaMarkerBytes))
    · rfl
    · exact absurd hio h4
  refine ⟨by omega, h2, h3', h4', ?_⟩
  have hok := createProgramAddress_ok seeds owner (by omega) h2 h3' h4'
  rw [h] at hok
  exact congrArg Prod.fst hok

theorem createProgramAddress_err_of_native (seeds : List (List Nat)) (owner : PublicKey)
    (h : isNativeProgramID owner = true) :
    (createProgramAddress seeds owner).2.isSome = true :=
  (createProgramAddress_err_iff seeds owner).mpr (Or.inr (Or.inr (Or.inl h)))

theorem createProgramAddress_err_of_many (seeds : List (List Nat)) (owner : PublicKey)
    (h : MaxSeeds < seeds.length) :
    (createProgramAddress seeds owner).2.isSome = true :=
  (createProgramAddress_err_iff seeds owner).mpr (Or.inl h)

/-! ## The bump-seed search loop -/

theorem findProgramAddressAux_ok_iff (seeds : List (List Nat)) (owner : PublicKey) :
    ∀ n addr bump, findProgramAddressAux seeds owner n = (addr, bump, none) ↔
      (1 ≤ bump ∧ bump ≤ n ∧ createProgramAddress (seeds ++ [[bump]]) owner = (addr, none) ∧
       ∀ b, bump < b → b ≤ n → (createProgramAddress (seeds ++ [[b]]) owner).2.isSome = true) := by
  intro n
  induction n with
  | zero =>
    intro addr bump
    constructor
    · intro h
      simp [findProgramAddressAux, Prod.ext_iff] at h
    · rintro ⟨hb1, hb0, -, -⟩
      omega
  | succ n ih =>
    intro addr bump
    rcases hc : createProgramAddress (seeds ++ [[n+1]]) owner with ⟨a0, e0⟩
    cases e0 with
    | none =>
      have hstep : findProgramAddressAux seeds owner (n+1) = (a0, n+1, none) := by
        conv_lhs => rw [findProgramAddressAux]
        rw [hc]
      rw [hstep]
      constructor
      · intro h
        have ha : a0 = addr := congrArg (fun t => t.1) h
        have hbmp : n + 1 = bump := congrArg (fun t => t.2.1) h
        refine ⟨by omega, by omega, ?_, ?_⟩
        · rw [← hbmp, ← ha]; exact hc
        · intro b hlt hle
          omega
      · rintro ⟨hge, hle, hok, hfail⟩
        by_cases hbn : bump = n + 1
        · subst hbn
          rw [hc] at hok
          have ha : a0 = addr := congrArg Prod.fst hok
          rw [ha]
        · exfalso
          have hfb := hfail (n+1) (by omega) le_rfl
          rw [hc] at hfb
          simp at hfb
    | some err =>
      have hstep : findProgramAddressAux seeds owner (n+1) =
          findProgramAddressAux seeds owner n := by
        conv_lhs => rw [findProgramAddressAux]
        rw [hc]
      rw [hstep, ih addr bump]
      constructor
      · rintro ⟨hge, hle, hok, hfail⟩
        refine ⟨hge, by omega, hok, ?_⟩
        intro b hlt hble
        by_cases hbn : b = n + 1
        · subst hbn
          rw [hc]
          rfl
        · exact hfail b hlt (by omega)
      · rintro ⟨hge, hle, hok, hfail⟩
        have hbn : bump ≠ n + 1 := by
          intro hbn
          subst hbn
          rw [hc] at hok
          simp [Prod.ext_iff] at hok
        refine ⟨hge, by omega, hok, fun b hlt hble => hfail b hlt (by omega)⟩

theorem findProgramAddressAux_err_iff (seeds : List (List Nat)) (owner : PublicKey) :
    ∀ n, findProgramAddressAux seeds owner n =
        (zeroPublicKey, 0, some "unable to find a valid program address") ↔
      (∀ b, 1 ≤ b → b ≤ n → (createProgramAddress (seeds ++ [[b]]) owner).2.isSome = true) := by
  intro n
  induction n with
  | zero =>
    constructor
    · intro h b hb1 hb0
      omega
    · intro h
      rfl
  | succ n ih =>
    rcases hc : createProgramAddress (seeds ++ [[n+1]]) owner with ⟨a0, e0⟩
    cases e0 with
    | none =>
      have hstep : findProgramAddressAux seeds owner (n+1) = (a0, n+1, none) := by
        conv_lhs => rw [findProgramAddressAux]
        rw [hc]
      rw [hstep]
      constructor
      · intro h
        simp [Prod.ext_iff] at h
      · intro h
        have hfb := h (n+1) (by omega) le_rfl
        rw [hc] at hfb
        simp at hfb
    | some err =>
      have hstep : findProgramAddressAux seeds owner (n+1) =
          findProgramAddressAux seeds owner n := by
        conv_lhs => rw [findProgramAddressAux]
        rw [hc]
      rw [hstep, ih]
      constructor
      · intro h b hb1 hble
        by_cases hbn : b = n + 1
        · subst hbn
          rw [hc]
          rfl
        · exact h b hb1 (by omega)
      · intro h b hb1 hble
        exact h b hb1 (by omega)

/-! ## Facts about the error strings and the text codecs -/

theorem illegalOwnerMessage_ne_maxseed (owner : PublicKey) :
    illegalOwnerMessage owner ≠ "Max seed length exceeded" := by
  intro h
  have hlen := congrArg String.length h
  rw [illegalOwnerMessage, String.length_append, String.length_append] at hlen
  have e1 : ("illegal owner: " : String).length = 15 := by decide
  have e2 : (" is a native program" : String).length = 20 := by decide
  have e3 : ("Max seed length exceeded" : String).length = 24 := by decide
  rw [e1, e2, e3] at hlen
  omega

theorem illegalOwnerMessage_ne_curve (owner : PublicKey) :
    illegalOwnerMessage owner ≠ "invalid seeds; address must fall off the curve" := by
  intro h
  have hdata := congrArg String.data h
  rw [illegalOwnerMessage, String.data_append, String.data_append, List.append_assoc] at hdata
  have h1 := congrArg (fun l => l[1]?) hdata
  simp only at h1
  rw [List.getElem?_append_left (by decide)] at h1
  exact absurd h1 (by decide)

theorem b58DigitOf_mem (c : Char) (h : (b58DigitOf c).isSome = true) : c ∈ b58Chars := by
  rcases hfind : b58DigitOf c with _ | i
  · rw [hfind] at h
    simp at h
  · unfold b58DigitOf at hfind
    obtain ⟨hi, hp, -⟩ := List.findIdx?_eq_some_iff_getElem.mp hfind
    have hceq : b58Chars[i] = c := by simpa using hp
    rw [← hceq]
    exact List.getElem_mem hi

theorem b58_safe_chars (c : Char) (h : (b58DigitOf c).isSome = true) :
    c ≠ Char.ofNat 34 ∧ c ≠ Char.ofNat 92 := by
  have hmem := b58DigitOf_mem c h
  have hall : ∀ x ∈ b58Chars, x ≠ Char.ofNat 34 ∧ x ≠ Char.ofNat 92 := by decide
  exact hall c hmem

theorem b58Decode_ok_chars (s : String) (bs : List Nat) (h : b58Decode s = Except.ok bs) :
    ∀ c ∈ s.toList, (b58DigitOf c).isSome = true := by
  intro c hc
  by_contra hcon
  have hnall : ¬ (s.toList.all (fun c => (b58DigitOf c).isSome) = true) := by
    rw [List.all_eq_true]
    intro hall
    exact hcon (hall c hc)
  simp only [b58Decode] at h
  rw [if_neg hnall] at h
  exact Except.noConfusion h

theorem publicKeyFromBase58_wrong_len (s : String) (bs : List Nat)
    (hdec : b58Decode s = Except.ok bs) (hlen : bs.length ≠ 32) :
    publicKeyFromBase58 s =
      (zeroPublicKey, some ("invalid length, expected 32, got " ++ toString bs.length)) := by
  simp only [publicKeyFromBase58, hdec]
  rw [if_neg (by simpa [PublicKeyLength] using hlen)]

theorem publicKeyFromBase58_pkString (p : PublicKey) (hlen : p.length = 32)
    (hb : ∀ d ∈ p, d < 256) : publicKeyFromBase58 (pkString p) = (p, none) := by
  have h := b58_roundtrip p hb
  simp only [publicKeyFromBase58, pkString, h]
  rw [if_pos (by simpa [PublicKeyLength] using hlen)]

theorem b58Encode_ne_empty (p : List Nat) (hlen : p.length = 32) (hb : ∀ d ∈ p, d < 256) :
    b58Encode p ≠ "" := by
  intro hcontra
  have h := b58_roundtrip p hb
  rw [hcontra] at h
  have hemp : b58Decode "" = Except.ok [] := rfl
  rw [hemp] at h
  have : ([] : List Nat) = p := by
    simpa using h
  rw [← this] at hlen
  simp at hlen

theorem jsonUnmarshalString_quote (s : String)
    (h : ∀ c ∈ s.toList, c ≠ Char.ofNat 34 ∧ c ≠ Char.ofNat 92) :
    jsonUnmarshalString (jsonQuote s) = Except.ok s := by
  have htl : (jsonQuote s).toList = Char.ofNat 34 :: (s.toList ++ [Char.ofNat 34]) := rfl
  simp only [jsonUnmarshalString, htl]
  rw [if_pos ⟨trivial, by simp, by rw [List.getLast?_concat], by
    rw [List.dropLast_concat]
    exact h⟩]
  rw [List.dropLast_concat]
  rfl

theorem createProgramAddress_fst_zero_of_err (seeds : List (List Nat)) (owner : PublicKey)
    (h : (createProgramAddress seeds owner).2.isSome = true) :
    (createProgramAddress seeds owner).1 = zeroPublicKey := by
  by_cases h1 : MaxSeeds < seeds.length
  · rw [createProgramAddress_too_many seeds owner h1]
  · by_cases h2 : ∃ s ∈ seeds, MaxSeedLength < s.length
    · rw [createProgramAddress_seed_too_long seeds owner (by omega) h2]
    · have h2' : ∀ s ∈ seeds, s.length ≤ MaxSeedLength := by
        intro s hs
        by_contra hcon
        exact h2 ⟨s, hs, by omega⟩
      by_cases h3 : isNativeProgramID owner = true
      · rw [createProgramAddress_illegal_owner seeds owner (by omega) h2' h3]
      · have h3' : isNativeProgramID owner = false := by
          cases hio : isNativeProgramID owner
          · rfl
          · exact absurd hio h3
        by_cases h4 : isOnCurve (sha256 (seeds.flatten ++ owner ++ pdaMarkerBytes)) = true
        · rw [createProgramAddress_on_curve seeds owner (by omega) h2' h3' h4]
        · exfalso
          have h4' : isOnCurve (sha256 (seeds.flatten ++ owner ++ pdaMarkerBytes)) = false := by
            cases hio : isOnCurve (sha256 (seeds.flatten ++ owner ++ pdaMarkerBytes))
            · rfl
            · exact absurd hio h4
          rw [createProgramAddress_ok seeds owner (by omega) h2' h3' h4'] at h
          simp at h

/-! ## Concrete sanity checks of the embedding

The spec's Scenario C and the reserved-owner rejection, evaluated inside
the kernel against the embedded SHA-256, curve test and codec. -/

theorem createProgramAddress_scenario_c :
    createProgramAddress
        [[84, 97, 108, 107, 105, 110, 103], [83, 113, 117, 105, 114, 114, 101, 108, 115]]
        (mustPublicKeyFromBase58 "BPFLoaderUpgradeab1e11111111111111111111111") =
      (mustPublicKeyFromBase58 "2fnQrngrQT4SeLcdToJAD96phoEjNL2man2kfRLCASVk", none) := by
  decide

theorem findProgramAddress_scenario_d :
    findProgramAddress
        [[109, 101, 116, 97, 100, 97, 116, 97],
         mustPublicKeyFromBase58 "metaqbxxUerdq28cj1RbAWkYQm3ybzjb6a8bt518x1s",
         mustPublicKeyFromBase58 "77K8mr457qxUSSNSfi4sSj5euP8DyuJJWHAUQVW8QCp3"]
        (mustPublicKeyFromBase58 "metaqbxxUerdq28cj1RbAWkYQm3ybzjb6a8bt518x1s") =
      (mustPublicKeyFromBase58 "GfihrEYCPrvUyrMyMQPdhGEStxa9nKEK2Wfn9iK4AZq2", 253, none) := by
  decide

theorem createProgramAddress_reserved_owner_example :
    createProgramAddress [[1]]
        (mustPublicKeyFromBase58 "Config1111111111111111111111111111111111111") =
      (zeroPublicKey,
        some "illegal owner: Config1111111111111111111111111111111111111 is a native program") := by
  decide

/-! ## The claims -/

/-- C1: under the seed-count, seed-length and owner restrictions, a
`CreateProgramAddress` call whose digest falls off the curve returns
exactly `SHA256(concat(seeds) ++ owner_bytes ++ "ProgramDerivedAddress")`
as the resulting 32-byte key; and on the Scenario B input
`[[], [1]]` under owner `BPFLoaderUpgradeab1e11111111111111111111111` it
succeeds with the key whose base58 form is
`BwqrghZA2htAcqq8dzP1WDAhTXYTYWj7CHxF5j7TDBAe`. -/
theorem c1_createProgramAddress_digest :
    (∀ (seeds : List (List Nat)) (owner : PublicKey),
      seeds.length ≤ MaxSeeds → (∀ s ∈ seeds, s.length ≤ MaxSeedLength) →
      isNativeProgramID owner = false →
      isOnCurve (sha256 (seeds.flatten ++ owner ++ pdaMarkerBytes)) = false →
      createProgramAddress seeds owner =
        (sha256 (seeds.flatten ++ owner ++ pdaMarkerBytes), none) ∧
      (sha256 (seeds.flatten ++ owner ++ pdaMarkerBytes)).length = 32) ∧
    ((createProgramAddress [[], [1]]
        (mustPublicKeyFromBase58 "BPFLoaderUpgradeab1e11111111111111111111111")).2 = none ∧
      pkString (createProgramAddress [[], [1]]
        (mustPublicKeyFromBase58 "BPFLoaderUpgradeab1e11111111111111111111111")).1 =
        "BwqrghZA2htAcqq8dzP1WDAhTXYTYWj7CHxF5j7TDBAe") := by
  refine ⟨fun seeds owner h1 h2 h3 h4 =>
    ⟨createProgramAddress_ok seeds owner h1 h2 h3 h4, sha256_length _⟩, by decide⟩

/-- C2: `FindProgramAddress` succeeds with `(addr, bump)` exactly when
`bump` is the strictly largest value in [1, 255] whose appended-bump
derivation succeeds — in particular re-running `CreateProgramAddress` on
`seeds ++ [bump]` reproduces `addr` — and it fails with the exhaustion
error exactly when every bump in [1, 255] fails. -/
theorem c2_findProgramAddress_canonical :
    ∀ (seeds : List (List Nat)) (owner : PublicKey),
      (∀ (addr : PublicKey) (bump : Nat),
        findProgramAddress seeds owner = (addr, bump, none) ↔
          (1 ≤ bump ∧ bump ≤ 255 ∧
           createProgramAddress (seeds ++ [[bump]]) owner = (addr, none) ∧
           ∀ b, bump < b → b ≤ 255 →
             (createProgramAddress (seeds ++ [[b]]) owner).2.isSome = true)) ∧
      (findProgramAddress seeds owner =
          (zeroPublicKey, 0, some "unable to find a valid program address") ↔
        ∀ b, 1 ≤ b → b ≤ 255 →
          (createProgramAddress (seeds ++ [[b]]) owner).2.isSome = true) := by
  intro seeds owner
  exact ⟨fun addr bump => findProgramAddressAux_ok_iff seeds owner 255 addr bump,
    findProgramAddressAux_err_iff seeds owner 255⟩

/-- C2 witness: for the seed list [[98]] under the BPFLoaderUpgradeable
owner the very first attempt, bump 255, succeeds and is returned. -/
theorem c2_witness :
    findProgramAddress [[98]]
        (mustPublicKeyFromBase58 "BPFLoaderUpgradeab1e11111111111111111111111") =
      (sha256 (([[98]] ++ [[255]]).flatten ++
          mustPublicKeyFromBase58 "BPFLoaderUpgradeab1e11111111111111111111111" ++
          pdaMarkerBytes),
        255, none) :=
  ((c2_findProgramAddress_canonical [[98]]
      (mustPublicKeyFromBase58 "BPFLoaderUpgradeab1e11111111111111111111111")).1 _ 255).mpr
    ⟨by omega, by omega, by decide, fun b h1 h2 => absurd (lt_of_lt_of_le h1 h2) (by omega)⟩

/-- C3: whenever `CreateProgramAddress` succeeds its resulting key does
not decode to a curve point; conversely, the earlier checks passing, an
on-curve digest makes it fail with the invalid-seeds error — the seed
list `[[0]]` under the BPFLoaderUpgradeable owner concretely exercises
that branch. -/
theorem c3_offcurve_guarantee :
    (∀ (seeds : List (List Nat)) (owner : PublicKey) (pk : PublicKey),
      createProgramAddress seeds owner = (pk, none) → isOnCurve pk = false) ∧
    (∀ (seeds : List (List Nat)) (owner : PublicKey),
      seeds.length ≤ MaxSeeds → (∀ s ∈ seeds, s.length ≤ MaxSeedLength) →
      isNativeProgramID owner = false →
      isOnCurve (sha256 (seeds.flatten ++ owner ++ pdaMarkerBytes)) = true →
      createProgramAddress seeds owner =
        (zeroPublicKey, some "invalid seeds; address must fall off the curve")) ∧
    createProgramAddress [[0]]
        (mustPublicKeyFromBase58 "BPFLoaderUpgradeab1e11111111111111111111111") =
      (zeroPublicKey, some "invalid seeds; address must fall off the curve") := by
  refine ⟨?_, createProgramAddress_on_curve, by decide⟩
  intro seeds owner pk h
  obtain ⟨-, -, -, h4, hpk⟩ := createProgramAddress_ok_inv seeds owner pk h
  rw [hpk]
  exact h4

/-- C4: `CreateWithSeed` fails exactly when the seed exceeds 32 bytes
(boundary: a 33-byte seed fails, a 32-byte seed succeeds), and on success
— for any owner, reserved ones included, and with no curve test — it
returns `SHA256(base ++ seed ++ owner)` as the key. -/
theorem c4_createWithSeed_spec :
    (∀ (base : PublicKey) (seed : List Nat) (owner : PublicKey),
      ((createWithSeed base seed owner).2.isSome = true ↔ MaxSeedLength < seed.length) ∧
      (MaxSeedLength < seed.length →
        createWithSeed base seed owner = (zeroPublicKey, some "Max seed length exceeded")) ∧
      (seed.length ≤ MaxSeedLength →
        createWithSeed base seed owner = (sha256 (base ++ seed ++ owner), none))) ∧
    (createWithSeed zeroPublicKey (List.replicate 33 0) zeroPublicKey).2.isSome = true ∧
    (createWithSeed zeroPublicKey (List.replicate 32 0) zeroPublicKey).2 = none := by
  refine ⟨?_, by decide, by decide⟩
  intro base seed owner
  by_cases h : MaxSeedLength < seed.length
  · have heq : createWithSeed base seed owner =
        (zeroPublicKey, some "Max seed length exceeded") := by
      simp only [createWithSeed]
      rw [if_pos h]
    refine ⟨?_, fun _ => heq, fun hle => by omega⟩
    rw [heq]
    simp [h]
  · have heq : createWithSeed base seed owner = (sha256 (base ++ seed ++ owner), none) := by
      simp only [createWithSeed]
      rw [if_neg h, publicKeyFromBytes_sha256]
    refine ⟨?_, fun hgt => absurd hgt h, fun _ => heq⟩
    rw [heq]
    simp [h]

/-- C5 counterexample: seventeen seeds and a single 33-byte seed fail
with the same error value, "Max seed length exceeded", so the four
failure conditions do not produce four pairwise-distinct errors. -/
theorem c5_counterexample_same_error :
    createProgramAddress (List.replicate 17 []) zeroPublicKey =
      (zeroPublicKey, some "Max seed length exceeded") ∧
    createProgramAddress [List.replicate 33 0] zeroPublicKey =
      (zeroPublicKey, some "Max seed length exceeded") := by decide

/-- C5 (amended): `CreateProgramAddress` fails exactly under the four
spec conditions, checked in the spec's order, always returning the zero
address alongside the error; but the too-many-seeds and seed-too-long
conditions share the error message "Max seed length exceeded", so only
three pairwise-distinct errors arise — the illegal-owner and on-curve
messages are distinct from it and from each other. -/
theorem c5_error_cascade :
    ∀ (seeds : List (List Nat)) (owner : PublicKey),
      ((createProgramAddress seeds owner).2.isSome = true ↔
        (MaxSeeds < seeds.length ∨ (∃ s ∈ seeds, MaxSeedLength < s.length) ∨
         isNativeProgramID owner = true ∨
         isOnCurve (sha256 (seeds.flatten ++ owner ++ pdaMarkerBytes)) = true)) ∧
      ((createProgramAddress seeds owner).2.isSome = true →
        (createProgramAddress seeds owner).1 = zeroPublicKey) ∧
      (MaxSeeds < seeds.length →
        createProgramAddress seeds owner = (zeroPublicKey, some "Max seed length exceeded")) ∧
      (seeds.length ≤ MaxSeeds → (∃ s ∈ seeds, MaxSeedLength < s.length) →
        createProgramAddress seeds owner = (zeroPublicKey, some "Max seed length exceeded")) ∧
      (seeds.length ≤ MaxSeeds → (∀ s ∈ seeds, s.length ≤ MaxSeedLength) →
        isNativeProgramID owner = true →
        createProgramAddress seeds owner = (zeroPublicKey, some (illegalOwnerMessage owner))) ∧
      (seeds.length ≤ MaxSeeds → (∀ s ∈ seeds, s.length ≤ MaxSeedLength) →
        isNativeProgramID owner = false →
        isOnCurve (sha256 (seeds.flatten ++ owner ++ pdaMarkerBytes)) = true →
        createProgramAddress seeds owner =
          (zeroPublicKey, some "invalid seeds; address must fall off the curve")) ∧
      illegalOwnerMessage owner ≠ "Max seed length exceeded" ∧
      illegalOwnerMessage owner ≠ "invalid seeds; address must fall off the curve" ∧
      ("Max seed length exceeded" : String) ≠
        "invalid seeds; address must fall off the curve" := by
  intro seeds owner
  exact ⟨createProgramAddress_err_iff seeds owner,
    createProgramAddress_fst_zero_of_err seeds owner,
    createProgramAddress_too_many seeds owner,
    createProgramAddress_seed_too_long seeds owner,
    createProgramAddress_illegal_owner seeds owner,
    createProgramAddress_on_curve seeds owner,
    illegalOwnerMessage_ne_maxseed owner,
    illegalOwnerMessage_ne_curve owner,
    by decide⟩

/-- C6 counterexample: the one-character input "2" decodes to the single
byte 1 and `PrivateKeyFromBase58` accepts it with no error, although one
byte is not a valid ed25519 secret-key length. -/
theorem c6_counterexample_no_length_check :
    privateKeyFromBase58 "2" = Except.ok [1] ∧ ([1] : List Nat).length ≠ 64 := by decide

/-- C6 (amended): `PrivateKeyFromBase58` fails exactly on characters
outside the base58 alphabet; it performs no length validation, so any
byte string the decode yields — of whatever length — is returned as the
PrivateKey. -/
theorem c6_privateKeyFromBase58_spec :
    ∀ s : String,
      ((∃ c ∈ s.toList, (b58DigitOf c).isSome = false) →
        privateKeyFromBase58 s = Except.error "invalid base58 digit") ∧
      (∀ bs, b58Decode s = Except.ok bs → privateKeyFromBase58 s = Except.ok bs) ∧
      ((∀ c ∈ s.toList, (b58DigitOf c).isSome = true) →
        ∃ bs, privateKeyFromBase58 s = Except.ok bs) := by
  intro s
  refine ⟨?_, fun bs h => h, ?_⟩
  · rintro ⟨c, hc, hnone⟩
    simp only [privateKeyFromBase58, b58Decode]
    rw [if_neg (by
      rw [List.all_eq_true]
      intro hall
      rw [hall c hc] at hnone
      exact absurd hnone (by decide))]
  · intro hall
    simp only [privateKeyFromBase58, b58Decode]
    rw [if_pos (List.all_eq_true.mpr hall)]
    exact ⟨_, rfl⟩

/-- C7 counterexample: the three-element array `[1,2,3]` parses and is
returned as a PrivateKey with no error, although three bytes is not a
valid secret-key element count. -/
theorem c7_counterexample_no_count_check :
    privateKeyFromSolanaKeygenContent "[1,2,3]" = Except.ok [1, 2, 3] ∧
    ([1, 2, 3] : List Nat).length ≠ 64 := by decide

/-- C7 (amended): the keygen-file import wraps any JSON decode failure in
a decode error (e.g. on the non-JSON input "not json"), and on a
successful parse returns exactly the parsed bytes, with no element-count
validation. -/
theorem c7_keygen_content_spec :
    ∀ content : String,
      (∀ e, parseByteArray content = Except.error e →
        privateKeyFromSolanaKeygenContent content =
          Except.error ("decode keygen file: " ++ e)) ∧
      (∀ bs, parseByteArray content = Except.ok bs →
        privateKeyFromSolanaKeygenContent content = Except.ok bs) ∧
      privateKeyFromSolanaKeygenContent "not json" =
        Except.error "decode keygen file: invalid character looking for beginning of value" := by
  intro content
  refine ⟨?_, ?_, by decide⟩
  · intro e h
    simp only [privateKeyFromSolanaKeygenContent, h]
  · intro bs h
    simp only [privateKeyFromSolanaKeygenContent, h]

/-- C8: the byte-level base58 round-trip law `Decode(Encode(b)) = b`, and
its consequence for keys: encoding a 32-byte key yields non-empty text
that `PublicKeyFromBase58` decodes back to exactly that key. -/
theorem c8_base58_roundtrip :
    (∀ bs : List Nat, (∀ d ∈ bs, d < 256) → b58Decode (b58Encode bs) = Except.ok bs) ∧
    (∀ p : PublicKey, p.length = 32 → (∀ d ∈ p, d < 256) →
      b58Encode p ≠ "" ∧ publicKeyFromBase58 (pkString p) = (p, none)) :=
  ⟨b58_roundtrip, fun p hlen hb =>
    ⟨b58Encode_ne_empty p hlen hb, publicKeyFromBase58_pkString p hlen hb⟩⟩

/-- C8 witness: a byte string with a leading zero round-trips, and the
zero key decodes back from its 32-one base58 form. -/
theorem c8_witness :
    b58Decode (b58Encode [0, 7, 255]) = Except.ok [0, 7, 255] ∧
    b58Encode zeroPublicKey ≠ "" ∧
    publicKeyFromBase58 (pkString zeroPublicKey) = (zeroPublicKey, none) :=
  ⟨c8_base58_roundtrip.1 [0, 7, 255] (by decide),
    (c8_base58_roundtrip.2 zeroPublicKey (by decide) (by decide)).1,
    (c8_base58_roundtrip.2 zeroPublicKey (by decide) (by decide)).2⟩

/-- C9: once the appended bump makes the seed list exceed 16 entries —
that is, for 16 or more caller seeds — or the owner is reserved, every
one of the 255 bump attempts fails, and `FindProgramAddress` returns the
generic exhaustion error, masking the underlying cause. -/
theorem c9_findProgramAddress_masks (seeds : List (List Nat)) (owner : PublicKey)
    (h : MaxSeeds ≤ seeds.length ∨ isNativeProgramID owner = true) :
    findProgramAddress seeds owner =
      (zeroPublicKey, 0, some "unable to find a valid program address") ∧
    ∀ b, (createProgramAddress (seeds ++ [[b]]) owner).2.isSome = true := by
  have hall : ∀ b, (createProgramAddress (seeds ++ [[b]]) owner).2.isSome = true := by
    intro b
    rcases h with h | h
    · apply createProgramAddress_err_of_many
      have hlen : (seeds ++ [[b]]).length = seeds.length + 1 := by simp
      have hm : MaxSeeds = 16 := rfl
      omega
    · exact createProgramAddress_err_of_native _ _ h
  exact ⟨(findProgramAddressAux_err_iff seeds owner 255).mpr (fun b _ _ => hall b), hall⟩

/-- C9 witness: sixteen empty seeds exhaust the whole bump scan. -/
theorem c9_witness :
    findProgramAddress (List.replicate 16 []) zeroPublicKey =
      (zeroPublicKey, 0, some "unable to find a valid program address") ∧
    ∀ b, (createProgramAddress (List.replicate 16 [] ++ [[b]]) zeroPublicKey).2.isSome = true :=
  c9_findProgramAddress_masks (List.replicate 16 []) zeroPublicKey (Or.inl (by decide))

/-- C10: `PublicKeyFromBase58` — and through it `UnmarshalText` and
`UnmarshalJSON` — fails on every input whose decoded byte length is not
exactly 32, leaving the zero key alongside the error; `PublicKeyFromBytes`
never fails: it truncates longer input to 32 bytes, zero-pads shorter
input, and maps the empty input to the zero key. -/
theorem c10_decode_length_and_frombytes :
    (∀ (s : String) (bs : List Nat), b58Decode s = Except.ok bs → bs.length ≠ 32 →
      publicKeyFromBase58 s =
        (zeroPublicKey, some ("invalid length, expected 32, got " ++ toString bs.length)) ∧
      (publicKeyUnmarshalText s).1 = zeroPublicKey ∧
      (publicKeyUnmarshalText s).2.isSome = true ∧
      ∀ prev, (publicKeyUnmarshalJSON prev (jsonQuote s)).1 = zeroPublicKey ∧
        (publicKeyUnmarshalJSON prev (jsonQuote s)).2.isSome = true) ∧
    (∀ bs : List Nat, (publicKeyFromBytes bs).length = 32 ∧
      (32 ≤ bs.length → publicKeyFromBytes bs = bs.take 32) ∧
      (bs.length ≤ 32 → publicKeyFromBytes bs = bs ++ List.replicate (32 - bs.length) 0)) ∧
    publicKeyFromBytes [] = zeroPublicKey ∧
    publicKeyFromBase58 "2" = (zeroPublicKey, some "invalid length, expected 32, got 1") := by
  refine ⟨?_, ?_, by decide, by decide⟩
  · intro s bs hdec hlen
    have hkey := publicKeyFromBase58_wrong_len s bs hdec hlen
    have hjson : jsonUnmarshalString (jsonQuote s) = Except.ok s :=
      jsonUnmarshalString_quote s
        (fun c hc => b58_safe_chars c (b58Decode_ok_chars s bs hdec c hc))
    refine ⟨hkey, ?_, ?_, ?_⟩
    · simp only [publicKeyUnmarshalText, hkey]
    · simp only [publicKeyUnmarshalText, hkey]
      rfl
    · intro prev
      constructor
      · simp only [publicKeyUnmarshalJSON, hjson, hkey]
      · simp only [publicKeyUnmarshalJSON, hjson, hkey]
        rfl
  · intro bs
    refine ⟨?_, ?_, ?_⟩
    · simp only [publicKeyFromBytes, PublicKeyLength, List.length_append,
        List.length_take, List.length_replicate]
      omega
    · intro h
      simp [publicKeyFromBytes, PublicKeyLength, Nat.sub_eq_zero_of_le h]
    · intro h
      simp [publicKeyFromBytes, PublicKeyLength, List.take_of_length_le h]

end Solana
